import Mathlib

set_option maxRecDepth 20000

/-!
Verification of SquireTournamentServices/SquireCore `postprocess.py`.

The program is a one-shot line rewriter over the file `squire_core.h`:
it splits the file contents on `'\n'`, tests each segment first against
`RATIONAL_LINE_RE` and then against `POLY_MORPHISM_RE` (both applied with
`re.match`, i.e. anchored at the start of the segment only, case
insensitively), emits the corresponding replacement text, and joins each
per-segment output with a trailing `'\n'`.

Lines are modelled as `List Char`.  The two regular expressions are
embedded as deterministic recognizers; the equivalence with the
backtracking semantics of the patterns is discussed in the doc comment of
each recognizer.  Case folding and the character classes `\s` and
`[a-zA-Z]` are modelled at ASCII granularity, which is exact for every
ASCII input.
-/

namespace Postprocess

/-- Python's `\s` class on ASCII characters: space, tab, newline, carriage
return, vertical tab and form feed. -/
def pyIsSpace (c : Char) : Bool :=
  decide (c = ' ' ∨ c = '\t' ∨ c = '\n' ∨ c = '\r' ∨ c = '\x0b' ∨ c = '\x0c')

/-- The regex class `[a-zA-Z]`. -/
def isAsciiAlpha (c : Char) : Bool :=
  decide (('a' ≤ c ∧ c ≤ 'z') ∨ ('A' ≤ c ∧ c ≤ 'Z'))

/-- Case-insensitive character comparison as performed by `re.I` on ASCII
pattern characters: either the characters are equal, or they are the upper
and lower case variants of the same ASCII letter (the codes differ by 32). -/
def ciEq (p c : Char) : Bool :=
  decide (p = c ∨ (isAsciiAlpha p = true ∧ isAsciiAlpha c = true ∧
    (p.toNat + 32 = c.toNat ∨ c.toNat + 32 = p.toNat)))

/-- Match a literal pattern (case-insensitively) against a prefix of the
input, returning the remaining input on success.  This is how `re.match`
consumes the literal parts of a pattern. -/
def stripCI : List Char → List Char → Option (List Char)
  | [], rest => some rest
  | _ :: _, [] => none
  | p :: ps, c :: cs => if ciEq p c then stripCI ps cs else none

/-- The literal part of `RATIONAL_LINE_RE` (`postprocess.py` line 8):
`using sc_r64 = sc_Rational32;`.  The trailing `\s*` of the pattern is
irrelevant under `re.match` (it can always match the empty string). -/
def ratPat : List Char :=
  ['u', 's', 'i', 'n', 'g', ' ', 's', 'c', '_', 'r', '6', '4', ' ', '=',
   ' ', 's', 'c', '_', 'R', 'a', 't', 'i', 'o', 'n', 'a', 'l', '3', '2', ';']

/-- `RATIONAL_LINE_RE.match(line)` is truthy: after the leading `\s*`
(maximal munch is equivalent here because the next pattern character `u`
is not whitespace) the literal `using sc_r64 = sc_Rational32;` matches
case-insensitively; whatever follows is ignored by `re.match`. -/
def rationalMatch (line : List Char) : Bool :=
  (stripCI ratPat (line.dropWhile pyIsSpace)).isSome

/-- The literal `using ` that opens `POLY_MORPHISM_RE`. -/
def usingPat : List Char := ['u', 's', 'i', 'n', 'g', ' ']

/-- The literal ` = sc_TypeId<` between the two capture groups of
`POLY_MORPHISM_RE`. -/
def midPat : List Char :=
  [' ', '=', ' ', 's', 'c', '_', 'T', 'y', 'p', 'e', 'I', 'd', '<']

/-- The literal `>;` closing `POLY_MORPHISM_RE`. -/
def closePat : List Char := ['>', ';']

/-- The `Id` check at the end of the first capture group
`(sc_[a-zA-Z]+Id)`: the last two characters of the maximal letter run must
be `i` and `d` up to case. -/
def ciRunEndsId (run : List Char) : Bool :=
  match run.reverse with
  | cd :: ci :: _ => ciEq 'i' ci && ciEq 'd' cd
  | _ => false

/-- `POLY_MORPHISM_RE.match(line)`, returning the text of capture group 1
on success (`postprocess.py` lines 5–7):
`\s*using (sc_[a-zA-Z]+Id) = sc_TypeId<(sc_[a-zA-Z]+)>;\s*` with `re.I`.

Backtracking in `(sc_[a-zA-Z]+Id) = ` is equivalent to: take the maximal
run of letters after the (case-insensitive) `sc_`; the run must have
length at least 3, its last two characters must be `Id` up to case, and
the literal ` = sc_TypeId<` must follow the run — any shorter split would
force the space of ` = ` to match a letter, and a longer one would force
`d` to match the non-letter that ends the run.  Likewise
`(sc_[a-zA-Z]+)>;` forces the second group to be `sc_` plus the maximal
letter run, followed by `>;`.  The trailing `\s*` always succeeds under
`re.match`, so anything after `>;` is ignored.  The capture keeps the
original characters of the line (matching is case-insensitive but the
captured text is verbatim). -/
def polyMatch (line : List Char) : Option (List Char) :=
  match stripCI usingPat (line.dropWhile pyIsSpace) with
  | some (a :: b :: u :: r2) =>
    if ciEq 's' a && ciEq 'c' b && (u == '_')
        && decide (3 ≤ (r2.takeWhile isAsciiAlpha).length)
        && ciRunEndsId (r2.takeWhile isAsciiAlpha) then
      match stripCI midPat (r2.dropWhile isAsciiAlpha) with
      | some (d :: e :: v :: r5) =>
        if ciEq 's' d && ciEq 'c' e && (v == '_')
            && decide (1 ≤ (r5.takeWhile isAsciiAlpha).length)
            && (stripCI closePat (r5.dropWhile isAsciiAlpha)).isSome then
          some (a :: b :: u :: r2.takeWhile isAsciiAlpha)
        else none
      | _ => none
    else none
  | _ => none

/-- The replacement emitted for a Type-Id match (`postprocess.py` line 42):
`f"using {type} = struct __{type}" + "\x7b sc_Uuid _0; \x7d;"`. -/
def polyReplacement (ty : List Char) : List Char :=
  "using ".data ++ ty ++ " = struct __".data ++ ty ++ "\x7b sc_Uuid _0; \x7d;".data

/-- The fixed text prepended for a Rational match (`postprocess.py`
lines 22–32): the triple-quoted block opens with a newline, defines the
`ratio32` struct with two `int` fields, declares `ratio32ToFloat`, adds
the alias `using sc_Rational32 = ratio32;`, and ends with `\n`. -/
def rationalBlock : List Char :=
  ("\n/// This is ghastly wrapper for ratio32\ntypedef struct ratio32 \x7b\n    int _0;\n    int _1;\n\x7d ratio32;\n\n/// Turns a rational32 or ratio32 into a floating point number\nfloat ratio32ToFloat(ratio32 r);\n\nusing sc_Rational32 = ratio32;\n").data

/-- One iteration of the loop in `main` (`postprocess.py` lines 19–46):
the text appended to `ret` for a single element of `data.split("\n")`.
The Rational rule is tested first and `continue`s, so the Type-Id rule is
only tried when the Rational rule did not match. -/
def processLine (line : List Char) : List Char :=
  if rationalMatch line then rationalBlock ++ line ++ ['\n']
  else
    match polyMatch line with
    | some ty => polyReplacement ty ++ ['\n']
    | none => line ++ ['\n']

/-- Python's `data.split("\n")`: `""` splits to `[""]`, and every
occurrence of `'\n'` separates two (possibly empty) segments. -/
def splitNl : List Char → List (List Char)
  | [] => [[]]
  | c :: cs =>
    if c = '\n' then [] :: splitNl cs
    else
      match splitNl cs with
      | [] => [[c]]
      | s :: ss => (c :: s) :: ss

/-- The loop of `main` over an explicit list of segments. -/
def transformSegs (segs : List (List Char)) : List Char :=
  (segs.map processLine).flatten

/-- The full text-to-text transformation performed by `main`
(`postprocess.py` lines 17–46): split on `'\n'`, process each segment,
concatenate. -/
def transform (data : List Char) : List Char :=
  transformSegs (splitNl data)

/-- Inverse of `splitNl`: join segments with `'\n'` separators. -/
def unsplit : List (List Char) → List Char
  | [] => []
  | [s] => s
  | s :: ss => s ++ '\n' :: unsplit ss

/-- The exact Rational trigger line as it appears in the source file. -/
def ratCanon : List Char := "using sc_r64 = sc_Rational32;".data

/-- The I/O shell of `main` (`postprocess.py` lines 13–15 and 49–51),
embedded as explicit state passing.  The state is the readable content of
the target file `squire_core.h` (`none` when the file cannot be opened
for reading).  `open(HEADER, "r")` raising propagates the error and
nothing is written; otherwise the file is overwritten in full with
`transform` of its previous content. -/
def runMain (file : Option (List Char)) : Except Unit Unit × Option (List Char) :=
  match file with
  | none => (Except.error (), none)
  | some d => (Except.ok (), some (transform d))

/-! ### Helper lemmas -/

theorem ciEq_eq_of_not_alpha {p c : Char} (hp : isAsciiAlpha p = false)
    (h : ciEq p c = true) : c = p := by
  simp only [ciEq, decide_eq_true_eq] at h
  rcases h with h | ⟨hpa, _, _⟩
  · exact h.symm
  · rw [hp] at hpa; cases hpa

theorem alpha_of_ciEq {p c : Char} (hp : isAsciiAlpha p = true)
    (h : ciEq p c = true) : isAsciiAlpha c = true := by
  simp only [ciEq, decide_eq_true_eq] at h
  rcases h with h | ⟨_, hc, _⟩
  · exact h ▸ hp
  · exact hc

theorem stripCI_cons_pos {p c : Char} {ps cs : List Char} (h : ciEq p c = true) :
    stripCI (p :: ps) (c :: cs) = stripCI ps cs := by
  simp [stripCI, h]

theorem stripCI_isSome_cons {p : Char} {ps u : List Char}
    (h : (stripCI (p :: ps) u).isSome = true) :
    ∃ c cs, u = c :: cs ∧ ciEq p c = true ∧ (stripCI ps cs).isSome = true := by
  cases u with
  | nil => simp [stripCI] at h
  | cons c cs =>
    by_cases hc : ciEq p c = true
    · exact ⟨c, cs, rfl, hc, by simpa [stripCI, hc] using h⟩
    · simp [stripCI, hc] at h

/-- Leading whitespace does not affect the Rational matcher (both the
regex and the model strip `\s*` first). -/
theorem rationalMatch_ws {ws rest : List Char} (h : ∀ c ∈ ws, pyIsSpace c = true) :
    rationalMatch (ws ++ rest) = rationalMatch rest := by
  unfold rationalMatch
  rw [List.dropWhile_append_of_pos h]

/-- Leading whitespace does not affect the Type-Id matcher. -/
theorem polyMatch_ws {ws rest : List Char} (h : ∀ c ∈ ws, pyIsSpace c = true) :
    polyMatch (ws ++ rest) = polyMatch rest := by
  unfold polyMatch
  rw [List.dropWhile_append_of_pos h]

/-- The two rules never match the same line: a Rational match forces the
characters after `sc_` to be `r` (a letter) followed by `6` (not a
letter), so the letter run of `(sc_[a-zA-Z]+Id)` has length 1 and the
Type-Id pattern fails. -/
theorem rational_poly_exclusive {line : List Char} (h : rationalMatch line = true) :
    polyMatch line = none := by
  unfold rationalMatch at h
  unfold ratPat at h
  obtain ⟨c0, u0, hu0, hc0, h⟩ := stripCI_isSome_cons h
  obtain ⟨c1, u1, hu1, hc1, h⟩ := stripCI_isSome_cons h
  obtain ⟨c2, u2, hu2, hc2, h⟩ := stripCI_isSome_cons h
  obtain ⟨c3, u3, hu3, hc3, h⟩ := stripCI_isSome_cons h
  obtain ⟨c4, u4, hu4, hc4, h⟩ := stripCI_isSome_cons h
  obtain ⟨c5, u5, hu5, hc5, h⟩ := stripCI_isSome_cons h
  obtain ⟨c6, u6, hu6, hc6, h⟩ := stripCI_isSome_cons h
  obtain ⟨c7, u7, hu7, hc7, h⟩ := stripCI_isSome_cons h
  obtain ⟨c8, u8, hu8, hc8, h⟩ := stripCI_isSome_cons h
  obtain ⟨c9, u9, hu9, hc9, h⟩ := stripCI_isSome_cons h
  obtain ⟨c10, u10, hu10, hc10, h⟩ := stripCI_isSome_cons h
  have h8 : c8 = '_' := ciEq_eq_of_not_alpha (by decide) hc8
  have h10 : c10 = '6' := ciEq_eq_of_not_alpha (by decide) hc10
  have h9 : isAsciiAlpha c9 = true := alpha_of_ciEq (by decide) hc9
  unfold polyMatch usingPat
  rw [hu0, hu1, hu2, hu3, hu4, hu5, hu6, hu7, hu8, hu9, hu10, h8, h10]
  rw [stripCI_cons_pos hc0, stripCI_cons_pos hc1, stripCI_cons_pos hc2,
    stripCI_cons_pos hc3, stripCI_cons_pos hc4, stripCI_cons_pos hc5]
  simp only [stripCI]
  rw [List.takeWhile_cons, h9]
  simp [List.takeWhile_cons, show isAsciiAlpha '6' = false from rfl]

/-- Consuming the literal `using ` from a line that starts with it
(after the empty leading-whitespace run). -/
theorem stripCI_using (x : List Char) :
    stripCI usingPat (List.dropWhile pyIsSpace
      ('u' :: 's' :: 'i' :: 'n' :: 'g' :: ' ' :: x)) = some x := rfl

/-- Consuming the literal ` = sc_TypeId<`. -/
theorem stripCI_mid (x : List Char) :
    stripCI midPat (' ' :: '=' :: ' ' :: 's' :: 'c' :: '_' :: 'T' :: 'y' ::
      'p' :: 'e' :: 'I' :: 'd' :: '<' :: x) = some x := rfl

/-- Consuming the literal `>;`. -/
theorem stripCI_close (x : List Char) :
    stripCI closePat ('>' :: ';' :: x) = some x := rfl

/-- The maximal letter run of `<Name>Id<space>...` is `<Name>Id`. -/
theorem takeWhile_name (name rest : List Char)
    (hna : ∀ c ∈ name, isAsciiAlpha c = true) :
    (name ++ ('I' :: 'd' :: ' ' :: rest)).takeWhile isAsciiAlpha
      = name ++ ['I', 'd'] := by
  have h1 : ∀ c ∈ name ++ ['I', 'd'], isAsciiAlpha c = true := by
    intro c hc
    rcases List.mem_append.1 hc with hc | hc
    · exact hna c hc
    · simp only [List.mem_cons, List.not_mem_nil, or_false] at hc
      rcases hc with rfl | rfl <;> decide
  rw [show name ++ ('I' :: 'd' :: ' ' :: rest)
        = (name ++ ['I', 'd']) ++ (' ' :: rest) by simp,
    List.takeWhile_append_of_pos h1]
  simp [List.takeWhile_cons, show isAsciiAlpha ' ' = false from rfl]

/-- Dropping the maximal letter run of `<Name>Id<space>...`. -/
theorem dropWhile_name (name rest : List Char)
    (hna : ∀ c ∈ name, isAsciiAlpha c = true) :
    (name ++ ('I' :: 'd' :: ' ' :: rest)).dropWhile isAsciiAlpha
      = ' ' :: rest := by
  have h1 : ∀ c ∈ name ++ ['I', 'd'], isAsciiAlpha c = true := by
    intro c hc
    rcases List.mem_append.1 hc with hc | hc
    · exact hna c hc
    · simp only [List.mem_cons, List.not_mem_nil, or_false] at hc
      rcases hc with rfl | rfl <;> decide
  rw [show name ++ ('I' :: 'd' :: ' ' :: rest)
        = (name ++ ['I', 'd']) ++ (' ' :: rest) by simp,
    List.dropWhile_append_of_pos h1]
  simp [List.dropWhile_cons, show isAsciiAlpha ' ' = false from rfl]

/-- The maximal letter run of `<Name2>>...` is `<Name2>`. -/
theorem takeWhile_name2 (name2 rest : List Char)
    (hma : ∀ c ∈ name2, isAsciiAlpha c = true) :
    (name2 ++ ('>' :: rest)).takeWhile isAsciiAlpha = name2 := by
  rw [List.takeWhile_append_of_pos hma]
  simp [List.takeWhile_cons, show isAsciiAlpha '>' = false from rfl]

/-- Dropping the maximal letter run of `<Name2>>...`. -/
theorem dropWhile_name2 (name2 rest : List Char)
    (hma : ∀ c ∈ name2, isAsciiAlpha c = true) :
    (name2 ++ ('>' :: rest)).dropWhile isAsciiAlpha = '>' :: rest := by
  rw [List.dropWhile_append_of_pos hma]
  simp [List.dropWhile_cons, show isAsciiAlpha '>' = false from rfl]

/-- The Type-Id matcher on a line of the canonical shape
`using sc_<Name>Id = sc_TypeId<sc_<Name2>>;<anything>`: it succeeds and
captures `sc_<Name>Id`, whatever follows the `>;`. -/
theorem polyMatch_shape (name name2 tail : List Char) (hn : name ≠ [])
    (hna : ∀ c ∈ name, isAsciiAlpha c = true) (hm : name2 ≠ [])
    (hma : ∀ c ∈ name2, isAsciiAlpha c = true) :
    polyMatch ('u' :: 's' :: 'i' :: 'n' :: 'g' :: ' ' :: 's' :: 'c' :: '_' ::
        (name ++ ('I' :: 'd' :: ' ' :: '=' :: ' ' :: 's' :: 'c' :: '_' :: 'T' ::
          'y' :: 'p' :: 'e' :: 'I' :: 'd' :: '<' ::
          ('s' :: 'c' :: '_' :: (name2 ++ ('>' :: ';' :: tail))))))
      = some ('s' :: 'c' :: '_' :: (name ++ ['I', 'd'])) := by
  have htake := takeWhile_name name
    ('=' :: ' ' :: 's' :: 'c' :: '_' :: 'T' :: 'y' :: 'p' :: 'e' :: 'I' ::
      'd' :: '<' :: ('s' :: 'c' :: '_' :: (name2 ++ ('>' :: ';' :: tail)))) hna
  have hdrop := dropWhile_name name
    ('=' :: ' ' :: 's' :: 'c' :: '_' :: 'T' :: 'y' :: 'p' :: 'e' :: 'I' ::
      'd' :: '<' :: ('s' :: 'c' :: '_' :: (name2 ++ ('>' :: ';' :: tail)))) hna
  have htake2 := takeWhile_name2 name2 (';' :: tail) hma
  have hdrop2 := dropWhile_name2 name2 (';' :: tail) hma
  have hlen3 : 3 ≤ (name ++ ['I', 'd']).length := by
    have := List.length_pos.mpr hn
    simp only [List.length_append, List.length_cons, List.length_nil]
    omega
  have hlen1 : 1 ≤ name2.length := List.length_pos.mpr hm
  have hid : ciRunEndsId (name ++ ['I', 'd']) = true := by
    unfold ciRunEndsId
    rw [show (name ++ ['I', 'd']).reverse = 'd' :: 'I' :: name.reverse by simp]
    rfl
  unfold polyMatch
  rw [stripCI_using]
  simp only [htake, hdrop, stripCI_mid, htake2, hdrop2, stripCI_close, hid,
    decide_eq_true hlen3, decide_eq_true hlen1,
    show ciEq 's' 's' = true from rfl, show ciEq 'c' 'c' = true from rfl,
    beq_self_eq_true, Bool.and_true, Bool.true_and, Option.isSome_some,
    if_true]

/-- `processLine` on a line the Rational rule matches. -/
theorem processLine_rat {line : List Char} (h : rationalMatch line = true) :
    processLine line = rationalBlock ++ line ++ ['\n'] := by
  unfold processLine
  rw [h]
  simp

/-- `processLine` on a line the Type-Id rule matches: the output depends
only on the captured alias. -/
theorem processLine_poly {line ty : List Char} (h : polyMatch line = some ty) :
    processLine line = polyReplacement ty ++ ['\n'] := by
  have hr : rationalMatch line = false := by
    cases hb : rationalMatch line
    · rfl
    · rw [rational_poly_exclusive hb] at h; cases h
  unfold processLine
  rw [hr, h]
  simp

/-- `processLine` on a line neither rule matches. -/
theorem processLine_plain {line : List Char} (hr : rationalMatch line = false)
    (hp : polyMatch line = none) : processLine line = line ++ ['\n'] := by
  unfold processLine
  rw [hr, hp]
  simp

theorem stripCI_cons_neg {p c : Char} {ps cs : List Char} (h : ciEq p c = false) :
    stripCI (p :: ps) (c :: cs) = none := by
  simp [stripCI, h]

/-- `\s*` consumes nothing in front of a `u`. -/
theorem dropWhile_space_u (x : List Char) :
    List.dropWhile pyIsSpace ('u' :: x) = 'u' :: x := rfl

/-- A maximal letter run followed by a space. -/
theorem takeWhile_alpha_run (run x : List Char)
    (h : ∀ c ∈ run, isAsciiAlpha c = true) :
    (run ++ (' ' :: x)).takeWhile isAsciiAlpha = run := by
  rw [List.takeWhile_append_of_pos h]
  simp [List.takeWhile_cons, show isAsciiAlpha ' ' = false from rfl]

theorem dropWhile_alpha_run (run x : List Char)
    (h : ∀ c ∈ run, isAsciiAlpha c = true) :
    (run ++ (' ' :: x)).dropWhile isAsciiAlpha = ' ' :: x := by
  rw [List.dropWhile_append_of_pos h]
  simp [List.dropWhile_cons, show isAsciiAlpha ' ' = false from rfl]

theorem transformSegs_cons (s : List Char) (L : List (List Char)) :
    transformSegs (s :: L) = processLine s ++ transformSegs L := by
  simp [transformSegs]

theorem transformSegs_append (L1 L2 : List (List Char)) :
    transformSegs (L1 ++ L2) = transformSegs L1 ++ transformSegs L2 := by
  simp [transformSegs]

theorem splitNl_ne_nil (d : List Char) : splitNl d ≠ [] := by
  cases d with
  | nil => simp [splitNl]
  | cons c cs =>
    unfold splitNl
    by_cases hc : c = '\n'
    · simp [hc]
    · simp only [if_neg hc]
      cases h : splitNl cs <;> simp

theorem splitNl_length (d : List Char) :
    (splitNl d).length = d.count '\n' + 1 := by
  induction d with
  | nil => simp [splitNl]
  | cons c cs ih =>
    unfold splitNl
    by_cases hc : c = '\n'
    · subst hc
      simp [List.count_cons, ih]
    · obtain ⟨s, ss, hss⟩ := List.exists_cons_of_ne_nil (splitNl_ne_nil cs)
      rw [if_neg hc, hss]
      have hlen : (s :: ss).length = cs.count '\n' + 1 := by rw [← hss]; exact ih
      simp only [List.length_cons] at hlen ⊢
      rw [List.count_cons]
      simp only [beq_iff_eq, if_neg hc]
      omega

theorem unsplit_splitNl (d : List Char) : unsplit (splitNl d) = d := by
  induction d with
  | nil => rfl
  | cons c cs ih =>
    unfold splitNl
    by_cases hc : c = '\n'
    · subst hc
      rw [if_pos rfl]
      obtain ⟨s, ss, hss⟩ := List.exists_cons_of_ne_nil (splitNl_ne_nil cs)
      rw [hss]
      rw [hss] at ih
      simp only [unsplit, List.nil_append]
      rw [ih]
    · obtain ⟨s, ss, hss⟩ := List.exists_cons_of_ne_nil (splitNl_ne_nil cs)
      rw [if_neg hc, hss]
      rw [hss] at ih
      cases ss with
      | nil => simp only [unsplit] at ih ⊢; rw [ih]
      | cons t ts =>
        simp only [unsplit] at ih ⊢
        rw [List.cons_append, ih]

/-- Every output of `processLine` ends with the appended `"\n"`. -/
theorem processLine_ends_nl (s : List Char) :
    ∃ y, processLine s = y ++ ['\n'] := by
  unfold processLine
  split
  · exact ⟨_, rfl⟩
  · split
    · exact ⟨_, rfl⟩
    · exact ⟨_, rfl⟩

theorem one_le_count_processLine (s : List Char) :
    1 ≤ (processLine s).count '\n' := by
  obtain ⟨y, hy⟩ := processLine_ends_nl s
  rw [hy, List.count_append]
  simp

theorem length_le_sum_map {f : List Char → ℕ} (L : List (List Char))
    (h : ∀ x ∈ L, 1 ≤ f x) : L.length ≤ (L.map f).sum := by
  induction L with
  | nil => simp
  | cons s ss ih =>
    simp only [List.map_cons, List.sum_cons, List.length_cons]
    have h1 := h s (List.mem_cons_self s ss)
    have h2 := ih fun x hx => h x (List.mem_cons_of_mem s hx)
    omega

/-- Each run adds at least one newline per input segment. -/
theorem count_transform (d : List Char) :
    d.count '\n' + 1 ≤ (transform d).count '\n' := by
  unfold transform transformSegs
  rw [List.count_flatten, List.map_map]
  have h1 := length_le_sum_map (f := fun s => (processLine s).count '\n')
    (splitNl d) (fun x _ => one_le_count_processLine x)
  rw [splitNl_length] at h1
  exact le_trans h1 (le_of_eq (by rfl))

/-- Inversion for a successful Type-Id match: the capture is `sc_` (in the
original casing) followed by a nonempty all-letter run of length ≥ 3. -/
theorem polyMatch_some_inv {line ty : List Char} (h : polyMatch line = some ty) :
    ∃ a b run, ty = a :: b :: '_' :: run ∧ ciEq 's' a = true ∧ ciEq 'c' b = true ∧
      (∀ c ∈ run, isAsciiAlpha c = true) ∧ 3 ≤ run.length := by
  unfold polyMatch at h
  split at h
  · rename_i a b u r2 heq
    split at h
    · rename_i hcond
      split at h
      · rename_i d e v r5 heq2
        split at h
        · simp only [Option.some.injEq] at h
          simp only [Bool.and_eq_true, beq_iff_eq, decide_eq_true_eq] at hcond
          obtain ⟨⟨⟨⟨hs, hc⟩, hu⟩, hlen⟩, _⟩ := hcond
          subst hu
          exact ⟨a, b, r2.takeWhile isAsciiAlpha, h.symm, hs, hc,
            fun c hcm => List.mem_takeWhile_imp hcm, hlen⟩
        · cases h
      · cases h
    · cases h
  · cases h

/-- The Type-Id replacement as an explicit character list. -/
theorem polyReplacement_cons (a b : Char) (run : List Char) :
    polyReplacement (a :: b :: '_' :: run)
      = 'u' :: 's' :: 'i' :: 'n' :: 'g' :: ' ' :: a :: b :: '_' ::
        (run ++ (' ' :: '=' :: ' ' :: 's' :: 't' :: 'r' :: 'u' :: 'c' :: 't' ::
          ' ' :: '_' :: '_' :: (a :: b :: '_' ::
          (run ++ ("\x7b sc_Uuid _0; \x7d;").data)))) := by
  unfold polyReplacement
  simp only [List.append_assoc, List.cons_append]
  rfl

/-- The line emitted by the Type-Id rule matches neither trigger: the
Rational pattern fails inside the alias (a letter run cannot contain `6`),
and the Type-Id pattern fails at ` = struct __` (`c` vs `t`). -/
theorem polyReplacement_no_trigger (a b : Char) (run : List Char)
    (hs : ciEq 's' a = true) (hc : ciEq 'c' b = true)
    (hrun : ∀ c ∈ run, isAsciiAlpha c = true) (hlen : 3 ≤ run.length) :
    rationalMatch (polyReplacement (a :: b :: '_' :: run)) = false ∧
    polyMatch (polyReplacement (a :: b :: '_' :: run)) = none := by
  obtain ⟨r0, run1, hr0⟩ := List.exists_cons_of_ne_nil
    (show run ≠ [] by intro h; rw [h] at hlen; simp at hlen)
  obtain ⟨r1, run2, hr1⟩ := List.exists_cons_of_ne_nil
    (show run1 ≠ [] by intro h; rw [hr0, h] at hlen; simp at hlen)
  have ha0 : isAsciiAlpha r0 = true := hrun r0 (by rw [hr0]; exact List.mem_cons_self _ _)
  have ha1 : isAsciiAlpha r1 = true := hrun r1 (by
    rw [hr0, hr1]; exact List.mem_cons_of_mem _ (List.mem_cons_self _ _))
  have h61 : ciEq '6' r1 = false := by
    cases hb : ciEq '6' r1
    · rfl
    · have := ciEq_eq_of_not_alpha (by decide) hb
      rw [this] at ha1; cases ha1
  constructor
  · rw [polyReplacement_cons]
    unfold rationalMatch ratPat
    rw [dropWhile_space_u]
    rw [stripCI_cons_pos (by decide), stripCI_cons_pos (by decide),
      stripCI_cons_pos (by decide), stripCI_cons_pos (by decide),
      stripCI_cons_pos (by decide), stripCI_cons_pos (by decide)]
    rw [stripCI_cons_pos hs, stripCI_cons_pos hc, stripCI_cons_pos (by decide)]
    rw [hr0, hr1, List.cons_append, List.cons_append]
    by_cases h0 : ciEq 'r' r0 = true
    · rw [stripCI_cons_pos h0, stripCI_cons_neg h61]
      rfl
    · rw [stripCI_cons_neg (by simpa using h0)]
      rfl
  · rw [polyReplacement_cons]
    unfold polyMatch
    rw [stripCI_using]
    have htk := takeWhile_alpha_run run
      ('=' :: ' ' :: 's' :: 't' :: 'r' :: 'u' :: 'c' :: 't' :: ' ' :: '_' :: '_' ::
        (a :: b :: '_' :: (run ++ ("\x7b sc_Uuid _0; \x7d;").data))) hrun
    have hdp := dropWhile_alpha_run run
      ('=' :: ' ' :: 's' :: 't' :: 'r' :: 'u' :: 'c' :: 't' :: ' ' :: '_' :: '_' ::
        (a :: b :: '_' :: (run ++ ("\x7b sc_Uuid _0; \x7d;").data))) hrun
    by_cases hciri : ciRunEndsId run = true
    · simp only [htk, hdp, hs, hc, hciri, decide_eq_true hlen, beq_self_eq_true,
        Bool.and_true, Bool.true_and, if_true,
        show stripCI midPat (' ' :: '=' :: ' ' :: 's' :: 't' :: 'r' :: 'u' :: 'c' ::
          't' :: ' ' :: '_' :: '_' :: (a :: b :: '_' ::
          (run ++ ("\x7b sc_Uuid _0; \x7d;").data))) = none from rfl]
    · simp only [htk, hdp, hs, hc, decide_eq_true hlen, beq_self_eq_true,
        Bool.and_true, Bool.true_and]
      rw [show ciRunEndsId run = false by simpa using hciri]
      simp

/-- When no segment triggers a rule, the loop reproduces the segments
joined by `'\n'`, plus one final `'\n'`. -/
theorem transformSegs_plain (L : List (List Char)) (hne : L ≠ [])
    (h : ∀ s ∈ L, rationalMatch s = false ∧ polyMatch s = none) :
    transformSegs L = unsplit L ++ ['\n'] := by
  induction L with
  | nil => cases hne rfl
  | cons s ss ih =>
    have hs := h s (List.mem_cons_self _ _)
    cases ss with
    | nil =>
      rw [transformSegs_cons, processLine_plain hs.1 hs.2]
      simp [transformSegs, unsplit]
    | cons t ts =>
      have ih2 := ih (by simp) (fun x hx => h x (List.mem_cons_of_mem _ hx))
      rw [transformSegs_cons, processLine_plain hs.1 hs.2, ih2]
      simp only [unsplit]
      simp [List.append_assoc]

/-- Segments produced by the split contain no `'\n'`. -/
theorem not_mem_nl_splitNl (d : List Char) : ∀ seg ∈ splitNl d, '\n' ∉ seg := by
  induction d with
  | nil =>
    intro seg hseg
    simp only [splitNl, List.mem_cons, List.not_mem_nil, or_false] at hseg
    subst hseg; simp
  | cons c cs ih =>
    intro seg hseg
    unfold splitNl at hseg
    by_cases hc : c = '\n'
    · rw [if_pos hc] at hseg
      rcases List.mem_cons.1 hseg with rfl | h
      · simp
      · exact ih seg h
    · rw [if_neg hc] at hseg
      obtain ⟨s, ss, hss⟩ := List.exists_cons_of_ne_nil (splitNl_ne_nil cs)
      rw [hss] at hseg
      rcases List.mem_cons.1 hseg with rfl | h
      · intro hmem
        rcases List.mem_cons.1 hmem with h1 | h1
        · exact hc h1.symm
        · exact ih s (by rw [hss]; exact List.mem_cons_self _ _) h1
      · exact ih seg (by rw [hss]; exact List.mem_cons_of_mem _ h)

/-- A capture produced by the Type-Id rule contains no newline. -/
theorem polyCapture_no_nl {a b : Char} {run : List Char} (hs : ciEq 's' a = true)
    (hc : ciEq 'c' b = true) (hrun : ∀ c ∈ run, isAsciiAlpha c = true) :
    '\n' ∉ (a :: b :: '_' :: run) := by
  intro hm
  have ha : isAsciiAlpha a = true := alpha_of_ciEq (by decide) hs
  have hb : isAsciiAlpha b = true := alpha_of_ciEq (by decide) hc
  rcases List.mem_cons.1 hm with h1 | hm
  · rw [← h1] at ha; exact absurd ha (by decide)
  rcases List.mem_cons.1 hm with h1 | hm
  · rw [← h1] at hb; exact absurd hb (by decide)
  rcases List.mem_cons.1 hm with h1 | hm
  · exact absurd h1 (by decide)
  · exact absurd (hrun _ hm) (by decide)

example : rationalMatch ratCanon = true := by decide
example : rationalMatch ("  using SC_R64 = sc_rational32;  ").data = true := by decide
example : rationalMatch ("using sc_r64 = sc_Rational32; // note").data = true := by decide
example : rationalMatch ("using  sc_r64 = sc_Rational32;").data = false := by decide
example : polyMatch ("using sc_AdminId = sc_TypeId<sc_Admin>;").data
    = some ("sc_AdminId").data := by decide
example : polyMatch ("  USING SC_AdminID = sc_typeid<sc_x>;").data
    = some ("SC_AdminID").data := by decide
example : polyMatch ("using sc_r64 = sc_Rational32;").data = none := by decide
example :
    transform ("using sc_AdminId = sc_TypeId<sc_Admin>;\nusing sc_UserId = sc_TypeId<sc_User>;\n").data
      = ("using sc_AdminId = struct __sc_AdminId\x7b sc_Uuid _0; \x7d;\nusing sc_UserId = struct __sc_UserId\x7b sc_Uuid _0; \x7d;\n\n").data := by
  decide

/-! ### Claim theorems -/

/-- C1: for every input line of the shape
`using sc_<Name>Id = sc_TypeId<sc_<Name2>>;` (one-or-more alphabetic
characters in each name, matched case-insensitively, optional
leading/trailing whitespace), the emitted output line is
`using sc_<Name>Id = struct __sc_<Name>Id{ sc_Uuid _0; };` built from the
captured alias alone, regardless of `<Name2>`; and the two-line input
`using sc_AdminId = sc_TypeId<sc_Admin>;\nusing sc_UserId = sc_TypeId<sc_User>;\n`
produces the two corresponding struct-wrapper lines in the same order. -/
theorem typeid_line_rewrite (ws1 ws2 name name2 : List Char)
    (hw1 : ∀ c ∈ ws1, pyIsSpace c = true) (hw2 : ∀ c ∈ ws2, pyIsSpace c = true)
    (hn : name ≠ []) (hna : ∀ c ∈ name, isAsciiAlpha c = true)
    (hm : name2 ≠ []) (hma : ∀ c ∈ name2, isAsciiAlpha c = true) :
    processLine (ws1 ++ "using sc_".data ++ name ++ "Id = sc_TypeId<sc_".data
        ++ name2 ++ ">;".data ++ ws2)
      = polyReplacement ("sc_".data ++ name ++ "Id".data) ++ ['\n'] ∧
    transform ("using sc_AdminId = sc_TypeId<sc_Admin>;\nusing sc_UserId = sc_TypeId<sc_User>;\n").data
      = ("using sc_AdminId = struct __sc_AdminId\x7b sc_Uuid _0; \x7d;\nusing sc_UserId = struct __sc_UserId\x7b sc_Uuid _0; \x7d;\n\n").data := by
  constructor
  · have hline : ws1 ++ "using sc_".data ++ name ++ "Id = sc_TypeId<sc_".data
          ++ name2 ++ ">;".data ++ ws2
        = ws1 ++ ('u' :: 's' :: 'i' :: 'n' :: 'g' :: ' ' :: 's' :: 'c' :: '_' ::
            (name ++ ('I' :: 'd' :: ' ' :: '=' :: ' ' :: 's' :: 'c' :: '_' :: 'T' ::
              'y' :: 'p' :: 'e' :: 'I' :: 'd' :: '<' ::
              ('s' :: 'c' :: '_' :: (name2 ++ ('>' :: ';' :: ws2)))))) := by
      simp only [List.append_assoc]
      rfl
    rw [hline]
    have hpm := polyMatch_shape name name2 ws2 hn hna hm hma
    rw [processLine_poly (by rw [polyMatch_ws hw1]; exact hpm)]
    rfl
  · decide

theorem typeid_line_rewrite_witness :
    processLine (([' '] : List Char) ++ "using sc_".data ++ ['A', 'd', 'm', 'i', 'n']
        ++ "Id = sc_TypeId<sc_".data ++ ['W', 'i', 'd', 'g', 'e', 't']
        ++ ">;".data ++ ([] : List Char))
      = polyReplacement ("sc_".data ++ ['A', 'd', 'm', 'i', 'n'] ++ "Id".data) ++ ['\n'] ∧
    transform ("using sc_AdminId = sc_TypeId<sc_Admin>;\nusing sc_UserId = sc_TypeId<sc_User>;\n").data
      = ("using sc_AdminId = struct __sc_AdminId\x7b sc_Uuid _0; \x7d;\nusing sc_UserId = struct __sc_UserId\x7b sc_Uuid _0; \x7d;\n\n").data :=
  typeid_line_rewrite [' '] [] ['A', 'd', 'm', 'i', 'n'] ['W', 'i', 'd', 'g', 'e', 't']
    (by decide) (by decide) (by decide) (by decide) (by decide) (by decide)

/-- C2: every line matching the Rational trigger (the exact alias line,
with optional surrounding whitespace) is emitted as the fixed block
followed by the original matched line unchanged and exactly one trailing
newline; the Type-Id rule is not applied to such a line (the rules are
mutually exclusive, Rational tested first). -/
theorem rational_rule_block :
    (∀ line, rationalMatch line = true →
        processLine line = rationalBlock ++ line ++ ['\n']) ∧
    (∀ ws1 ws2, (∀ c ∈ ws1, pyIsSpace c = true) → (∀ c ∈ ws2, pyIsSpace c = true) →
        rationalMatch (ws1 ++ ratCanon ++ ws2) = true ∧
        processLine (ws1 ++ ratCanon ++ ws2)
          = rationalBlock ++ (ws1 ++ ratCanon ++ ws2) ++ ['\n']) ∧
    (∀ line, rationalMatch line = true → polyMatch line = none) := by
  refine ⟨fun line h => processLine_rat h, fun ws1 ws2 h1 h2 => ?_,
    fun line h => rational_poly_exclusive h⟩
  have hr : rationalMatch (ws1 ++ ratCanon ++ ws2) = true := by
    rw [List.append_assoc, rationalMatch_ws h1]
    rfl
  exact ⟨hr, processLine_rat hr⟩

theorem rational_rule_block_witness :
    rationalMatch (([' '] : List Char) ++ ratCanon ++ ([] : List Char)) = true ∧
    processLine (([' '] : List Char) ++ ratCanon ++ ([] : List Char))
      = rationalBlock ++ (([' '] : List Char) ++ ratCanon ++ ([] : List Char)) ++ ['\n'] :=
  rational_rule_block.2.1 [' '] [] (by decide) (by decide)

/-- C3 (counterexample): the claim "a line containing additional
non-whitespace characters after the trigger is emitted verbatim" is false:
`re.match` only anchors at the start, so
`using sc_r64 = sc_Rational32; // note` still matches the Rational trigger
and is not passed through. -/
theorem trailing_text_cex :
    rationalMatch ("using sc_r64 = sc_Rational32; // note").data = true ∧
    processLine ("using sc_r64 = sc_Rational32; // note").data
      ≠ ("using sc_r64 = sc_Rational32; // note").data ++ ['\n'] := by
  exact ⟨by decide, by decide⟩

/-- C3 (amended): a rule applies when the line, after optional leading
whitespace, begins with the trigger; trailing extra characters after the
trigger's `;` do not prevent the match.  A Rational trigger with a
trailing comment still produces the block and re-emits the whole line; a
Type-Id trigger with trailing text is rewritten with the trailing text
discarded; only lines in which no rule matches a prefix are emitted
verbatim. -/
theorem prefix_matching_rules :
    (∀ tail, processLine (ratCanon ++ tail)
        = rationalBlock ++ (ratCanon ++ tail) ++ ['\n']) ∧
    (∀ tail, processLine (("using sc_AdminId = sc_TypeId<sc_Admin>;").data ++ tail)
        = polyReplacement (("sc_AdminId").data) ++ ['\n']) ∧
    (∀ line, rationalMatch line = false → polyMatch line = none →
        processLine line = line ++ ['\n']) := by
  exact ⟨fun tail => processLine_rat rfl, fun tail => processLine_poly rfl,
    fun line h1 h2 => processLine_plain h1 h2⟩

theorem prefix_matching_rules_witness :
    processLine ("int x;").data = ("int x;").data ++ ['\n'] :=
  prefix_matching_rules.2.2 ("int x;").data rfl rfl

/-- C4: every line matching neither trigger is reproduced character for
character in its original relative position: the output is the
concatenation of the per-line outputs in input order, and the per-line
output of a non-matching line is the line itself plus the newline
separator. -/
theorem passthrough_lines :
    (∀ line, rationalMatch line = false → polyMatch line = none →
        processLine line = line ++ ['\n']) ∧
    (∀ pre post line, rationalMatch line = false → polyMatch line = none →
        transformSegs (pre ++ line :: post)
          = transformSegs pre ++ (line ++ ['\n']) ++ transformSegs post) ∧
    (∀ data, transform data = transformSegs (splitNl data)) := by
  refine ⟨fun line h1 h2 => processLine_plain h1 h2,
    fun pre post line h1 h2 => ?_, fun data => rfl⟩
  rw [transformSegs_append, transformSegs_cons, processLine_plain h1 h2]
  simp [List.append_assoc]

theorem passthrough_lines_witness :
    transformSegs ([("a").data] ++ ("int y;").data :: [("b").data])
      = transformSegs [("a").data] ++ (("int y;").data ++ ['\n'])
        ++ transformSegs [("b").data] :=
  passthrough_lines.2.1 [("a").data] [("b").data] ("int y;").data rfl rfl

/-- C5: a second run leaves already-converted Type-Id lines unchanged
(the replacement line matches neither trigger), but the Rational case is
not a no-op: as long as the line `using sc_r64 = sc_Rational32;` remains
among the file's lines, every run inserts the fixed block before it (and
the line itself survives the run, as it reappears as a line of the
output). -/
theorem second_run_behavior :
    (∀ line ty, polyMatch line = some ty →
        processLine (polyReplacement ty) = polyReplacement ty ++ ['\n']) ∧
    (∀ pre post, transformSegs (pre ++ ratCanon :: post)
        = transformSegs pre ++ (rationalBlock ++ ratCanon ++ ['\n'])
          ++ transformSegs post) ∧
    ratCanon ∈ splitNl (processLine ratCanon) := by
  refine ⟨fun line ty h => ?_, fun pre post => ?_, by decide⟩
  · obtain ⟨a, b, run, hty, hs, hc, hrun, hlen⟩ := polyMatch_some_inv h
    subst hty
    obtain ⟨hr, hp⟩ := polyReplacement_no_trigger a b run hs hc hrun hlen
    exact processLine_plain hr hp
  · rw [transformSegs_append, transformSegs_cons,
      processLine_rat (show rationalMatch ratCanon = true from rfl)]
    simp [List.append_assoc]

theorem second_run_behavior_witness :
    processLine (polyReplacement ("sc_AdminId").data)
      = polyReplacement ("sc_AdminId").data ++ ['\n'] :=
  second_run_behavior.1 ("using sc_AdminId = sc_TypeId<sc_Admin>;").data
    ("sc_AdminId").data rfl

/-- C6: the output's line count is never smaller than the input's;
unmatched and Type-Id lines contribute exactly one output line each (one
`'\n'`), a Rational line contributes twelve (the block's eleven added
lines plus the re-emitted original), the transformation distributes over
concatenation of segment lists (order preservation), and the segments fed
to it contain no `'\n'`. -/
theorem line_count_monotone :
    (∀ data, (splitNl data).length ≤ (splitNl (transform data)).length) ∧
    (∀ line, '\n' ∉ line → rationalMatch line = false →
        (processLine line).count '\n' = 1) ∧
    (∀ line, '\n' ∉ line → rationalMatch line = true →
        (processLine line).count '\n' = 12) ∧
    (∀ L1 L2, transformSegs (L1 ++ L2) = transformSegs L1 ++ transformSegs L2) ∧
    (∀ data seg, seg ∈ splitNl data → '\n' ∉ seg) := by
  refine ⟨fun data => ?_, fun line hnl hr => ?_, fun line hnl hr => ?_,
    transformSegs_append, fun data seg h => not_mem_nl_splitNl data seg h⟩
  · rw [splitNl_length, splitNl_length]
    have := count_transform data
    omega
  · have hone : (['\n'] : List Char).count '\n' = 1 := by decide
    cases hp : polyMatch line with
    | none =>
      rw [processLine_plain hr hp, List.count_append,
        List.count_eq_zero.mpr hnl, hone]
    | some ty =>
      rw [processLine_poly hp, List.count_append, hone]
      obtain ⟨a, b, run, hty, hs, hc, hrun, hlen⟩ := polyMatch_some_inv hp
      have h0 : (polyReplacement ty).count '\n' = 0 := by
        rw [List.count_eq_zero]
        intro hmem
        unfold polyReplacement at hmem
        simp only [List.mem_append] at hmem
        rcases hmem with ((((h | h) | h) | h) | h)
        · exact absurd h (by decide)
        · rw [hty] at h; exact polyCapture_no_nl hs hc hrun h
        · exact absurd h (by decide)
        · rw [hty] at h; exact polyCapture_no_nl hs hc hrun h
        · exact absurd h (by decide)
      rw [h0]
  · rw [processLine_rat hr, List.count_append, List.count_append,
      List.count_eq_zero.mpr hnl]
    have h11 : rationalBlock.count '\n' = 11 := by decide
    have hone : (['\n'] : List Char).count '\n' = 1 := by decide
    rw [h11, hone]

theorem line_count_monotone_witness :
    (processLine ratCanon).count '\n' = 12 :=
  line_count_monotone.2.2.1 ratCanon (by decide) rfl

/-- C7: if the target file cannot be opened for reading the error
propagates and the file is unchanged; on success the file is overwritten
in full with the transformed text; pattern-match failures are never
errors — the transform is total, so every readable input succeeds. -/
theorem io_shell_behavior :
    runMain none = (Except.error (), none) ∧
    (∀ d, runMain (some d) = (Except.ok (), some (transform d))) :=
  ⟨rfl, fun d => rfl⟩

/-- C8: the output is the concatenation of the per-segment outputs of the
split on `'\n'`, each followed by exactly one `'\n'`; the split of a
newline-terminated input has a final empty segment and the split of the
empty input is a single empty segment, so every run appends one extra
newline (on trigger-free inputs the output is exactly the input plus one
newline) and the whole-file transform is never the identity. -/
theorem trailing_newline_growth :
    (∀ data, transform data = transformSegs (splitNl data)) ∧
    (∀ s, ∃ y, processLine s = y ++ ['\n']) ∧
    (∀ data, splitNl (data ++ ['\n']) = splitNl data ++ [[]]) ∧
    splitNl ([] : List Char) = [[]] ∧
    (∀ data, (∀ s ∈ splitNl data, rationalMatch s = false ∧ polyMatch s = none) →
        transform data = data ++ ['\n']) ∧
    (∀ data, transform data ≠ data) := by
  refine ⟨fun data => rfl, processLine_ends_nl, ?_, rfl, ?_, ?_⟩
  · intro data
    induction data with
    | nil => rfl
    | cons c cs ih =>
      by_cases hc : c = '\n'
      · subst hc
        rw [List.cons_append]
        show ([] :: splitNl (cs ++ ['\n'])) = ([] :: splitNl cs) ++ [[]]
        rw [ih, List.cons_append]
      · have e1 : splitNl (c :: (cs ++ ['\n']))
            = if c = '\n' then [] :: splitNl (cs ++ ['\n'])
              else match splitNl (cs ++ ['\n']) with
                | [] => [[c]]
                | s :: ss => (c :: s) :: ss := rfl
        have e2 : splitNl (c :: cs)
            = if c = '\n' then [] :: splitNl cs
              else match splitNl cs with
                | [] => [[c]]
                | s :: ss => (c :: s) :: ss := rfl
        obtain ⟨s, ss, hss⟩ := List.exists_cons_of_ne_nil (splitNl_ne_nil cs)
        rw [List.cons_append, e1, e2, if_neg hc, if_neg hc, ih, hss]
        simp [List.cons_append]
  · intro data hall
    have h1 : transformSegs (splitNl data) = unsplit (splitNl data) ++ ['\n'] :=
      transformSegs_plain _ (splitNl_ne_nil data) hall
    show transformSegs (splitNl data) = data ++ ['\n']
    rw [h1, unsplit_splitNl]
  · intro data heq
    have := count_transform data
    rw [heq] at this
    omega

theorem trailing_newline_growth_witness :
    transform ("hello").data = ("hello").data ++ ['\n'] :=
  trailing_newline_growth.2.2.2.2.1 ("hello").data (by decide)

/-- C9: no line inserted by either rule matches either trigger: every
line of the Rational block (including the alias line
`using sc_Rational32 = ratio32;`) and every struct-wrapper replacement
fail both patterns, so the only emitted line that can trigger a rule
again is the re-emitted original Rational line. -/
theorem inserted_lines_inert :
    (∀ s ∈ splitNl rationalBlock, rationalMatch s = false ∧ polyMatch s = none) ∧
    (∀ line ty, polyMatch line = some ty →
        rationalMatch (polyReplacement ty) = false ∧
        polyMatch (polyReplacement ty) = none) := by
  refine ⟨by decide, fun line ty h => ?_⟩
  obtain ⟨a, b, run, hty, hs, hc, hrun, hlen⟩ := polyMatch_some_inv h
  subst hty
  exact polyReplacement_no_trigger a b run hs hc hrun hlen

theorem inserted_lines_inert_witness :
    rationalMatch (("using sc_Rational32 = ratio32;").data) = false ∧
    polyMatch (("using sc_Rational32 = ratio32;").data) = none :=
  inserted_lines_inert.1 ("using sc_Rational32 = ratio32;").data (by decide)

/-- C10: the Type-Id replacement depends only on the captured alias
token: leading/trailing whitespace of the matched line is discarded, the
replacement starts with lowercase `using`, and the alias's original
casing is reproduced verbatim even though matching is case-insensitive
(e.g. `  USING SC_AdminID = sc_typeid<sc_x>;` yields
`using SC_AdminID = struct __SC_AdminID{ sc_Uuid _0; };`). -/
theorem capture_only_replacement :
    (∀ line ty, polyMatch line = some ty →
        processLine line = polyReplacement ty ++ ['\n']) ∧
    processLine ("  USING SC_AdminID = sc_typeid<sc_x>;").data
      = ("using SC_AdminID = struct __SC_AdminID\x7b sc_Uuid _0; \x7d;\n").data :=
  ⟨fun line ty h => processLine_poly h, by decide⟩

theorem capture_only_replacement_witness :
    processLine ("using sc_AdminId = sc_TypeId<sc_Widget>;").data
      = polyReplacement ("sc_AdminId").data ++ ['\n'] :=
  capture_only_replacement.1 ("using sc_AdminId = sc_TypeId<sc_Widget>;").data
    ("sc_AdminId").data rfl

end Postprocess
